import Mathlib

/-!
Shallow embedding of the `microschema` JSON-Schema builder (index.js).

JavaScript objects are modelled as ordered association lists of string keys
(`Entries`), mirroring JS insertion-order semantics: assigning an existing key
updates it in place, assigning a new key appends it.  The two private symbols
of the source (`Symbol('required')` and `Symbol('chained')`) are modelled as a
boolean marker carried by object values (`JVal.jobj`) and an explicit `Chain`
state record for derived builders, respectively — symbol keys are invisible to
JSON serialization and to `deepEqual`, so they are kept apart from the
string-keyed entries.
-/

namespace Microschema

/-- JSON-like values produced by the builder.  `jobj marker entries` is a JS
object: `marker` models the private `Symbol('required')` key set by
`decorate`, `entries` the string-keyed properties in insertion order. -/
inductive JVal where
  | str (s : String)
  | num (n : Int)
  | bool (b : Bool)
  | null
  | arr (l : List JVal)
  | jobj (marker : Bool) (entries : List (String × JVal))
  | inf (neg : Bool)
deriving Repr

/-- Ordered string-keyed entries of a JS object. -/
abbrev Entries := List (String × JVal)

/-- Reads a key from a JS object's entries (first occurrence wins;
entries built from JS objects never repeat keys). -/
def lookupKey : Entries → String → Option JVal
  | [], _ => none
  | (k, v) :: rest, key => if k = key then some v else lookupKey rest key

/-- JS property assignment `o[key] = v`: an existing key keeps its position
and gets the new value, a new key is appended at the end. -/
def setEntry : Entries → String → JVal → Entries
  | [], key, v => [(key, v)]
  | (k, w) :: rest, key, v =>
      if k = key then (key, v) :: rest else (k, w) :: setEntry rest key v

/-- JS `Object.assign(target, src)`: copies each own key of `src` onto
`target` in order (last wins for keys appearing in both). -/
def assignEntries : Entries → Entries → Entries
  | t, [] => t
  | t, (k, v) :: rest => assignEntries (setEntry t k v) rest

/-- JS truthiness of the modelled values (empty string and zero are falsy,
every array and object is truthy). -/
def truthy : JVal → Bool
  | .str s => s ≠ ""
  | .num n => n ≠ 0
  | .bool b => b
  | .null => false
  | .arr _ => true
  | .jobj _ _ => true
  | .inf _ => true

/-- Embeds `getJsonType` from index.js: string → "string", array → "array",
number → "number", null → "null", anything else → "object". -/
def getJsonType : JVal → String
  | .str _ => "string"
  | .arr _ => "array"
  | .num _ => "number"
  | .null => "null"
  | .bool _ => "object"
  | .jobj _ _ => "object"
  | .inf _ => "number"

mutual

/-- Erases the private required markers recursively, keeping exactly the
string-keyed structure: two values are `deepEqual` in the JS sense (on
string-keyed entries, in order) iff their strips are equal. -/
def JVal.strip : JVal → JVal
  | .str s => .str s
  | .num n => .num n
  | .bool b => .bool b
  | .null => .null
  | .inf b => .inf b
  | .arr l => .arr (stripList l)
  | .jobj _ es => .jobj false (stripEntries es)

/-- Pointwise `JVal.strip` over an array's elements. -/
def stripList : List JVal → List JVal
  | [] => []
  | v :: r => JVal.strip v :: stripList r

/-- Pointwise `JVal.strip` over an object's entries. -/
def stripEntries : List (String × JVal) → List (String × JVal)
  | [] => []
  | (k, v) :: r => (k, JVal.strip v) :: stripEntries r

end

/-- Derived-builder state: `isRequired` models the `Symbol('required')` flag
set by the `required` getter, `hasChained`/`chained` model presence and
contents of the `Symbol('chained')` object set up by `chain()`. -/
structure Chain where
  isRequired : Bool
  hasChained : Bool
  chained : Entries
deriving Repr

/-- The shared base builder (the module object itself): no pending state. -/
def base : Chain := ⟨false, false, []⟩

/-- Embeds `chain(self)` from index.js: reuses `self` when it already carries
a chained-state object, otherwise derives a new builder with an empty one. -/
def chainOf (self : Chain) : Chain :=
  if self.hasChained then self else { self with hasChained := true, chained := [] }

/-- Embeds the `required` getter: derives (or reuses) a chained builder and
sets its required flag. -/
def required (self : Chain) : Chain :=
  let s := chainOf self
  { s with isRequired := true }

/-- Embeds `$id(id)`: derives (or reuses) a chained builder and records the
pending `$id` entry. -/
def dollarId (self : Chain) (id : String) : Chain :=
  let s := chainOf self
  { s with chained := setEntry s.chained "$id" (.str id) }

/-- Embeds `definitions(obj)`: derives (or reuses) a chained builder and
records the pending `definitions` entry. -/
def definitionsOf (self : Chain) (o : JVal) : Chain :=
  let s := chainOf self
  { s with chained := setEntry s.chained "definitions" o }

/-- Embeds `decorate(self, obj)`: transfers the pending required marker onto
the produced fragment and `Object.assign`s the pending chained entries. -/
def decorate (self : Chain) (o : JVal) : JVal :=
  match o with
  | .jobj mk es =>
      let mk := mk || self.isRequired
      let es := if self.hasChained then assignEntries es self.chained else es
      .jobj mk es
  | v => v

/-- Digits of a decimal numeral folded into a natural number. -/
def natOfDigits (cs : List Char) : Nat :=
  cs.foldl (fun a c => a * 10 + (c.toNat - 48)) 0

/-- An ECMAScript StrWhiteSpaceChar: ASCII whitespace, NBSP, the Unicode
line and paragraph separators, and the BOM (rarer Unicode space-separator
code points are not modelled). -/
def isJsSpace (c : Char) : Bool :=
  c = ' ' || c = '\t' || c = '\n' || c = '\r' || c = '\x0B' || c = '\x0C' ||
  c = '\u00A0' || c = '\u2028' || c = '\u2029' || c = '\uFEFF'

/-- Strips leading and trailing ECMAScript whitespace, as `Number()` does
around a StrNumericLiteral. -/
def trimJs (cs : List Char) : List Char :=
  ((cs.dropWhile isJsSpace).reverse.dropWhile isJsSpace).reverse

/-- A hexadecimal digit. -/
def isHexDigit (c : Char) : Bool :=
  c.isDigit || ('a' ≤ c && c ≤ 'f') || ('A' ≤ c && c ≤ 'F')

/-- The numeric value of a hexadecimal digit. -/
def hexVal (c : Char) : Nat :=
  if c.isDigit then c.toNat - 48
  else if 'a' ≤ c then c.toNat - 87
  else c.toNat - 55

/-- Digits in an arbitrary base folded into a natural number. -/
def natOfDigitsBase (b : Nat) (dv : Char → Nat) (cs : List Char) : Nat :=
  cs.foldl (fun a c => a * b + dv c) 0

/-- The exponent part of a decimal literal: empty means exponent 0; an
'e'/'E' followed by an optionally signed digit run gives that exponent;
anything else is not a StrDecimalLiteral (NaN). -/
def parseExp : List Char → Option Int
  | [] => some 0
  | c :: rest =>
      if c = 'e' || c = 'E' then
        match rest with
        | '+' :: ds =>
            if !ds.isEmpty && ds.all Char.isDigit then some (natOfDigits ds : Int) else none
        | '-' :: ds =>
            if !ds.isEmpty && ds.all Char.isDigit then some (-(natOfDigits ds : Int)) else none
        | ds =>
            if !ds.isEmpty && ds.all Char.isDigit then some (natOfDigits ds : Int) else none
      else none

/-- The exact floor of `sign × I.F × 10^exp` where I and F are digit runs:
the mathematical value of a decimal literal, floored as `Math.floor` floors
(toward minus infinity, so a negative value with a remainder rounds away
from zero). -/
def floorOfParts (neg : Bool) (I F : List Char) (exp : Int) : Int :=
  let M : Nat := natOfDigits (I ++ F)
  let shift : Int := exp - (F.length : Int)
  if 0 ≤ shift then
    let mag : Nat := M * 10 ^ shift.toNat
    if neg then -(mag : Int) else (mag : Int)
  else
    let d : Nat := 10 ^ (-shift).toNat
    let q : Nat := M / d
    if neg then (if M % d = 0 then -(q : Int) else -(q : Int) - 1) else (q : Int)

/-- Parses an optionally negated StrUnsignedDecimalLiteral ('Infinity', or
digits with an optional fraction and exponent) and returns its
`Math.floor` as a JS number value (`.num` or `.inf`); `none` is NaN. -/
def parseUnsignedDec (neg : Bool) (cs : List Char) : Option JVal :=
  if cs = "Infinity".data then some (.inf neg)
  else
    let I := cs.takeWhile Char.isDigit
    let r1 := cs.dropWhile Char.isDigit
    match r1 with
    | '.' :: r2 =>
        let F := r2.takeWhile Char.isDigit
        let r3 := r2.dropWhile Char.isDigit
        if I.isEmpty && F.isEmpty then none
        else (parseExp r3).map (fun e => .num (floorOfParts neg I F e))
    | _ =>
        if I.isEmpty then none
        else (parseExp r1).map (fun e => .num (floorOfParts neg I [] e))

/-- Parses a NonDecimalIntegerLiteral (0x/0X hex, 0b/0B binary, 0o/0O
octal); these carry no sign, fraction or exponent and floor to
themselves. -/
def parseNonDecimal : List Char → Option JVal
  | '0' :: x :: ds =>
      if (x = 'x' || x = 'X') && !ds.isEmpty && ds.all isHexDigit then
        some (.num (natOfDigitsBase 16 hexVal ds : Nat))
      else if (x = 'b' || x = 'B') && !ds.isEmpty && ds.all (fun c => c = '0' || c = '1') then
        some (.num (natOfDigitsBase 2 (fun c => c.toNat - 48) ds : Nat))
      else if (x = 'o' || x = 'O') && !ds.isEmpty &&
          ds.all (fun c => c.isDigit && c ≤ '7') then
        some (.num (natOfDigitsBase 8 (fun c => c.toNat - 48) ds : Nat))
      else none
  | _ => none

/-- Models `Math.floor(Number(s))` for the option strings of the shorthand
parser, following the ECMAScript StringNumericLiteral grammar: surrounding
whitespace is trimmed, the empty/whitespace-only string coerces to 0, a
signed decimal literal (with optional fraction and exponent) or 'Infinity'
gives its exact floor, an unsigned hex/binary/octal literal gives its
value, and everything else is NaN (`none`).  A sign in front of a
non-decimal literal is NaN, as in JS.  Values are computed as exact
rationals: IEEE-754 rounding above 2^53 and overflow to Infinity around
1e309 are not modelled. -/
def jsFloor (s : String) : Option JVal :=
  match trimJs s.data with
  | [] => some (.num 0)
  | '-' :: rest => parseUnsignedDec true rest
  | '+' :: rest => parseUnsignedDec false rest
  | cs =>
      match parseNonDecimal cs with
      | some v => some v
      | none => parseUnsignedDec false cs

/-- The effective numeric value of a shorthand option: `some v` when
`Math.floor(option)` is a truthy number `v` (a nonzero integer or
±Infinity — the truthiness test of the source), `none` when it is NaN
or 0. -/
def effNum (o : String) : Option JVal :=
  match jsFloor o with
  | some v => if truthy v = true then some v else none
  | none => none

/-- Embeds `parentSchema.required = parentSchema.required || []` followed by
`parentSchema.required.push(name)`. -/
def pushRequired (p : Entries) (name : String) : Entries :=
  let cur := match lookupKey p "required" with
    | some (.arr l) => l
    | _ => []
  setEntry p "required" (.arr (cur ++ [.str name]))

/-- The option loop of `parseTypeDescription`: for each option, 'uri' sets
`format`, 'required' pushes the property name onto the parent's required
list, and an option with nonzero `Math.floor` sets `minLength` 1 and
`maxLength` to the floor.  Returns (parent, propertySchema). -/
def optLoop (name : String) : List String → Entries → Entries → Entries × Entries
  | [], p, ps => (p, ps)
  | o :: rest, p, ps =>
      let ps1 := if o = "uri" then setEntry ps "format" (.str "uri") else ps
      let p1 := if o = "required" then pushRequired p name else p
      let ps2 := match effNum o with
        | some v => setEntry (setEntry ps1 "minLength" (.num 1)) "maxLength" v
        | none => ps1
      optLoop name rest p1 ps2

/-- Splits a character list at every colon, like JS `"…".split(':')` for a
single-character separator: always returns at least one (possibly empty)
group. -/
def splitColon : List Char → List (List Char)
  | [] => [[]]
  | c :: rest =>
      let r := splitColon rest
      if c = ':' then [] :: r
      else
        match r with
        | [] => [[c]]
        | g :: gs => (c :: g) :: gs

/-- Embeds JS `typeDesc.split(':')`. -/
def jsSplit (s : String) : List String :=
  (splitColon s.data).map (fun cs => String.mk cs)

/-- Embeds `parseTypeDescription(parentSchema, name, typeDesc)`: splits the
shorthand on ':', takes the first part as the type, and folds the remaining
options; returns the updated parent together with the property schema. -/
def parseTypeDescription (parent : Entries) (name typeDesc : String) :
    Entries × Entries :=
  match jsSplit typeDesc with
  | [] => (parent, [("type", .str "")])
  | ty :: options => optLoop name options parent [("type", .str ty)]

/-- A property value in the map given to `obj`: either a shorthand string or
an already-built value. -/
inductive TypeDesc where
  | s (sh : String)
  | v (val : JVal)
deriving Repr

/-- Options object accepted by `obj`/`strictObj` (absent fields are `none`;
`strict` is the boolean flag `strictObj` forces to true). -/
structure ObjOpts where
  title : Option JVal := none
  description : Option JVal := none
  strict : Bool := false
  dependencies : Option Entries := none
  dflt : Option JVal := none
  required : Option JVal := none
deriving Repr

/-- Embeds `setDependencies`: wraps bare string dependency values into
one-element arrays and stores the map under `dependencies`. -/
def setDependencies (js : Entries) (deps : Entries) : Entries :=
  let formatted := deps.map (fun p =>
    (p.1, match p.2 with
          | .str s => JVal.arr [.str s]
          | v => v))
  setEntry js "dependencies" (.jobj false formatted)

/-- Stores a property schema under `jsonSchema.properties[name]`. -/
def setProp (js : Entries) (name : String) (v : JVal) : Entries :=
  match lookupKey js "properties" with
  | some (.jobj mk es) => setEntry js "properties" (.jobj mk (setEntry es name v))
  | _ => js

/-- One iteration of `obj`'s property loop: a shorthand string goes through
`parseTypeDescription` (which may push into the parent's required list); a
value carrying the required marker pushes its name into the parent's
required list; either way the property schema is stored. -/
def objStep (js : Entries) (name : String) (td : TypeDesc) : Entries :=
  match td with
  | .s sh =>
      let pr := parseTypeDescription js name sh
      setProp pr.1 name (.jobj false pr.2)
  | .v value =>
      let js1 := match value with
        | .jobj true _ => pushRequired js name
        | _ => js
      setProp js1 name value

/-- The `for (const propertyName in microschema)` loop of `obj`. -/
def objLoop : List (String × TypeDesc) → Entries → Entries
  | [], js => js
  | (name, td) :: rest, js => objLoop rest (objStep js name td)

/-- The option steps of `obj` before the `required` check, in source order:
truthy title, truthy description, strict, dependencies, default. -/
def objOptsApply (opts : ObjOpts) : Entries :=
  let js : Entries := [("type", .str "object"), ("properties", .jobj false [])]
  let js := match opts.title with
    | some t => if truthy t then setEntry js "title" t else js
    | none => js
  let js := match opts.description with
    | some d => if truthy d then setEntry js "description" d else js
    | none => js
  let js := if opts.strict then setEntry js "additionalProperties" (.bool false) else js
  let js := match opts.dependencies with
    | some d => setDependencies js d
    | none => js
  match opts.dflt with
  | some d => setEntry js "default" d
  | none => js

/-- The tail of `obj`: runs the property loop on the prepared schema and
decorates the result with the builder's pending chain state. -/
def objFinish (self : Chain) (m : List (String × TypeDesc)) (js : Entries) : JVal :=
  decorate self (.jobj false (objLoop m js))

/-- Embeds `obj(microschema, opts)` from index.js: builds the base object
schema, applies the options in source order (title, description, strict,
dependencies, default, required — throwing when `required` is a truthy
non-array), runs the property loop, and decorates with pending chain
state. -/
def obj (self : Chain) (m : List (String × TypeDesc)) (opts : ObjOpts) :
    Except String JVal :=
  let js := objOptsApply opts
  match opts.required with
  | some v =>
      if truthy v then
        match v with
        | .arr l => .ok (objFinish self m (setEntry js "required" (.arr l)))
        | _ => .error "'required' must be an array"
      else .ok (objFinish self m js)
  | none => .ok (objFinish self m js)

/-- Embeds `strictObj(microschema, options)`: sets `options.strict = true` on
the options object and delegates to `obj`. -/
def strictObj (self : Chain) (m : List (String × TypeDesc)) (opts : ObjOpts) :
    Except String JVal :=
  obj self m { opts with strict := true }

/-- Stateful reading of `strictObj`, making the mutation of the caller's
options object explicit: returns the result together with the options object
as the caller observes it after the call (its `strict` field was set to
`true` before delegating to `obj`). -/
def strictObjS (self : Chain) (m : List (String × TypeDesc)) (opts : ObjOpts) :
    (Except String JVal) × ObjOpts :=
  let opts1 := { opts with strict := true }
  (obj self m opts1, opts1)

/-- Embeds `enum(...enums)`: when the first argument is an array it becomes
the value list; the type is inferred from the first value. -/
def enum (self : Chain) (args : List JVal) : JVal :=
  let enums := match args with
    | .arr l :: _ => l
    | _ => args
  let ty := match enums with
    | v :: _ => getJsonType v
    | [] => "null"
  decorate self (.jobj false [("type", .str ty), ("enum", .arr enums)])

/-- Embeds `const(value)` from index.js (the current source, matching its
test suite): the fragment holds only the constant, no type. -/
def const (self : Chain) (value : JVal) : JVal :=
  decorate self (.jobj false [("const", value)])

/-- Pattern argument to `string`: a plain string or a RegExp with source and
flags.  A JS RegExp's `source` is never the empty string (the empty regexp
prints as `(?:)`). -/
inductive PatternArg where
  | str (s : String)
  | regexp (source flags : String)
deriving Repr

/-- Options object accepted by `string`. -/
structure StringOpts where
  pattern : Option PatternArg := none
  format : Option String := none
  minLength : Option Int := none
  maxLength : Option Int := none
deriving Repr

/-- Embeds `string(opts)`: a truthy pattern is stored (a RegExp contributes
its source, but a RegExp with flags throws); truthy format, minLength and
maxLength are stored. -/
def string (self : Chain) (opts : StringOpts) : Except String JVal :=
  let s : Entries := [("type", .str "string")]
  let ps : Except String Entries := match opts.pattern with
    | none => .ok s
    | some (.str p) => .ok (if p = "" then s else setEntry s "pattern" (.str p))
    | some (.regexp src flags) =>
        if flags = "" then .ok (setEntry s "pattern" (.str src))
        else .error ("JSON schema does not support regexp flags: /" ++ src ++ "/" ++ flags)
  match ps with
  | .error e => .error e
  | .ok s =>
      let s := match opts.format with
        | some f => if f = "" then s else setEntry s "format" (.str f)
        | none => s
      let s := match opts.minLength with
        | some n => if n = 0 then s else setEntry s "minLength" (.num n)
        | none => s
      let s := match opts.maxLength with
        | some n => if n = 0 then s else setEntry s "maxLength" (.num n)
        | none => s
      .ok (decorate self (.jobj false s))

/-- Options object accepted by `number`. -/
structure NumberOpts where
  min : Option Int := none
  max : Option Int := none
  integer : Bool := false
deriving Repr

/-- Embeds `number(opts)`: type 'integer' when the integer flag is set,
otherwise 'number'; `min`/`max` become `minimum`/`maximum` whenever present
(`!= null` semantics, so zero bounds are kept). -/
def number (self : Chain) (opts : NumberOpts) : JVal :=
  let ty := if opts.integer then "integer" else "number"
  let s : Entries := [("type", .str ty)]
  let s := match opts.min with
    | some n => setEntry s "minimum" (.num n)
    | none => s
  let s := match opts.max with
    | some n => setEntry s "maximum" (.num n)
    | none => s
  decorate self (.jobj false s)

/-- Coerces a value to an array the way `mergeTypes` does: arrays stay,
anything else becomes a one-element array. -/
def arrayify : JVal → List JVal
  | .arr l => l
  | v => [v]

/-- Embeds `mergeTypes(obj, other)`: when both carry a truthy `type`, the
current fragment's type becomes the accumulated types followed by its own
(`second.push(...first)` in the source, `second` being the accumulator's
types and `first` the current fragment's). -/
def mergeTypes (o other : Entries) : Entries :=
  match lookupKey o "type", lookupKey other "type" with
  | some ot, some rt =>
      if truthy ot && truthy rt then
        setEntry o "type" (.arr (arrayify rt ++ arrayify ot))
      else o
  | _, _ => o

/-- The string-keyed entries one `types` argument contributes, as the loop
normalizes it: a shorthand string is parsed against a fresh parent, an
object contributes its entries, and a non-object value contributes no
string-keyed entries. -/
def paramEntries : TypeDesc → Entries
  | .s sh => (parseTypeDescription [] "" sh).2
  | .v (.jobj _ es) => es
  | .v _ => []

/-- The `type` entry a `types` argument carries after normalization. -/
def typeOf (td : TypeDesc) : Option JVal :=
  lookupKey (paramEntries td) "type"

/-- The parameter loop of `types`: each argument is normalized, its types
are merged with the accumulated union, then all its keys are
`Object.assign`ed onto the accumulator (last wins). -/
def typesLoop : List TypeDesc → Entries → Entries
  | [], r => r
  | td :: rest, r =>
      let o := mergeTypes (paramEntries td) r
      typesLoop rest (assignEntries r o)

/-- Embeds `types(...params)` from index.js. -/
def types (self : Chain) (params : List TypeDesc) : JVal :=
  decorate self (.jobj false (typesLoop params []))

/-- Reads the produced union type list of a fragment. -/
def typeListOf (v : JVal) : List JVal :=
  match v with
  | .jobj _ es =>
      match lookupKey es "type" with
      | some (.arr l) => l
      | _ => []
  | _ => []

/-- Reads a string key off a produced fragment (none on non-objects). -/
def JVal.lookup : JVal → String → Option JVal
  | .jobj _ es, k => lookupKey es k
  | _, _ => none

/-- The required marker of a produced fragment. -/
def marked : JVal → Bool
  | .jobj m _ => m
  | _ => false

/-- The names in a produced union type list (non-strings read as ""). -/
def typeNames (v : JVal) : List String :=
  (typeListOf v).map (fun x => match x with | .str s => s | _ => "")

/-- Tests whether `a` occurs strictly before `b` in the list. -/
def beforeIn (l : List String) (a b : String) : Bool :=
  match l.indexOf? a, l.indexOf? b with
  | some i, some j => i < j
  | _, _ => false

/-- The claim-level notion of a positive integer literal option string. -/
def isPosIntLiteral (s : String) : Bool :=
  !s.data.isEmpty && s.data.all Char.isDigit && s.data.any (fun c => c ≠ '0')

/-- Iterated `pushRequired` with the same name (the accumulated effect of
several ':required' options in one shorthand). -/
def pushReqN (p : Entries) (name : String) : Nat → Entries
  | 0 => p
  | n + 1 => pushReqN (pushRequired p name) name n

/-- The required list a parent schema currently carries (empty when absent
or not an array). -/
def reqBase (p : Entries) : List JVal :=
  match lookupKey p "required" with
  | some (.arr l) => l
  | _ => []

/-- The last effective numeric option value of a list, starting from a given
accumulator (`none` when no option has a truthy floor). -/
def lastEffFrom (acc : Option JVal) : List String → Option JVal
  | [] => acc
  | o :: rest => lastEffFrom (match effNum o with | some v => some v | none => acc) rest

/-- Whether a value is a JS array. -/
def isArr : JVal → Bool
  | .arr _ => true
  | _ => false

/-- The `type` entry of a fragment as a plain string ("" when absent or not
a string). -/
def typeTag (v : JVal) : String :=
  match v.lookup "type" with
  | some (.str s) => s
  | _ => ""

/-- The fragments produced by invoking `enum` on the same retained derived
builder `n` times in a row (the builder is shared across the calls, none of
which resets it). -/
def callRepeat (c : Chain) (args : List JVal) : Nat → List JVal
  | 0 => []
  | n + 1 => enum c args :: callRepeat c args n

/-- The value the last argument carrying key `k` contributes, starting from
a given accumulator: the claim-level reading of last-wins overwrite across
the arguments of `types`. -/
def lastValFrom (k : String) (acc : Option JVal) : List TypeDesc → Option JVal
  | [] => acc
  | td :: rest =>
      lastValFrom k (match lookupKey (paramEntries td) k with
        | some v => some v
        | none => acc) rest

/-- The value of key `k` contributed by the last argument that has it
(`none` when no argument does). -/
def lastVal (k : String) (params : List TypeDesc) : Option JVal :=
  lastValFrom k none params

/-- The union type list of a `types` call in declaration order: each
argument's type (a single value or an array, flattened) in source order. -/
def typeUnion : List TypeDesc → List JVal
  | [] => []
  | td :: rest => arrayify ((typeOf td).getD .null) ++ typeUnion rest

/-! ### Basic lemmas about the JS-object model -/

theorem lookup_setEntry_self (es : Entries) (k : String) (v : JVal) :
    lookupKey (setEntry es k v) k = some v := by
  induction es with
  | nil => simp [setEntry, lookupKey]
  | cons p rest ih =>
      obtain ⟨k1, v1⟩ := p
      by_cases h : k1 = k
      · simp [setEntry, h, lookupKey]
      · simp [setEntry, h, lookupKey, ih]

theorem lookup_setEntry_ne (es : Entries) (k k' : String) (v : JVal) (h : k' ≠ k) :
    lookupKey (setEntry es k v) k' = lookupKey es k' := by
  induction es with
  | nil => simp [setEntry, lookupKey, Ne.symm h]
  | cons p rest ih =>
      obtain ⟨k1, v1⟩ := p
      by_cases h1 : k1 = k
      · subst h1
        simp [setEntry, lookupKey, Ne.symm h]
      · simp [setEntry, h1, lookupKey, ih]

theorem setEntry_setEntry (es : Entries) (k : String) (v w : JVal) :
    setEntry (setEntry es k v) k w = setEntry es k w := by
  induction es with
  | nil => simp [setEntry]
  | cons p rest ih =>
      obtain ⟨k1, v1⟩ := p
      by_cases h : k1 = k
      · simp [setEntry, h]
      · simp [setEntry, h, ih]

theorem lookup_assign_notin : ∀ (src t : Entries) (k : String),
    k ∉ src.map Prod.fst → lookupKey (assignEntries t src) k = lookupKey t k
  | [], _, _, _ => rfl
  | (k1, v1) :: rest, t, k, h => by
      simp only [List.map_cons, List.mem_cons, not_or] at h
      rw [assignEntries, lookup_assign_notin rest _ k h.2,
        lookup_setEntry_ne _ _ _ _ h.1]

theorem lookup_pushRequired_ne (p : Entries) (name : String) (k : String)
    (h : k ≠ "required") : lookupKey (pushRequired p name) k = lookupKey p k := by
  simp only [pushRequired]
  exact lookup_setEntry_ne _ _ _ _ h

theorem lookup_pushReqN_ne (n : Nat) (p : Entries) (name : String) (k : String)
    (h : k ≠ "required") : lookupKey (pushReqN p name n) k = lookupKey p k := by
  induction n generalizing p with
  | zero => rfl
  | succ n ih => rw [pushReqN, ih, lookup_pushRequired_ne _ _ _ h]

theorem lookup_setProp_ne (js : Entries) (name : String) (v : JVal) (k : String)
    (h : k ≠ "properties") : lookupKey (setProp js name v) k = lookupKey js k := by
  simp only [setProp]
  cases hp : lookupKey js "properties" with
  | none => rfl
  | some w =>
      cases w <;> try rfl
      exact lookup_setEntry_ne _ _ _ _ h

/-! ### The parent component of the shorthand option loop -/

theorem optLoop_fst (name : String) : ∀ (os : List String) (p ps : Entries),
    (optLoop name os p ps).1 = pushReqN p name (os.count "required")
  | [], p, ps => by simp [optLoop, List.count_nil, pushReqN]
  | o :: rest, p, ps => by
      by_cases h : o = "required"
      · subst h
        rw [optLoop]
        simp only [if_pos rfl]
        rw [optLoop_fst name rest]
        have hc : (("required" : String) :: rest).count "required" = rest.count "required" + 1 := by
          simp [List.count_cons]
        rw [hc]
        rfl
      · rw [optLoop]
        simp only [if_neg h]
        rw [optLoop_fst name rest]
        have hc : (o :: rest).count "required" = rest.count "required" := by
          simp [List.count_cons, h]
        rw [hc]

theorem lookup_optLoop_snd_ne (name : String) : ∀ (os : List String) (p ps : Entries)
    (k : String), k ≠ "format" → k ≠ "minLength" → k ≠ "maxLength" →
    lookupKey (optLoop name os p ps).2 k = lookupKey ps k
  | [], _, _, _, _, _, _ => rfl
  | o :: rest, p, ps, k, h1, h2, h3 => by
      rw [optLoop]
      rw [lookup_optLoop_snd_ne name rest _ _ k h1 h2 h3]
      cases heff : effNum o with
      | some n =>
          simp only [heff]
          rw [lookup_setEntry_ne _ _ _ _ h3, lookup_setEntry_ne _ _ _ _ h2]
          by_cases ho : o = "uri"
          · simp only [if_pos ho]
            exact lookup_setEntry_ne _ _ _ _ h1
          · simp only [if_neg ho]
      | none =>
          simp only [heff]
          by_cases ho : o = "uri"
          · simp only [if_pos ho]
            exact lookup_setEntry_ne _ _ _ _ h1
          · simp only [if_neg ho]

theorem lookup_objStep_ne (js : Entries) (name : String) (td : TypeDesc) (k : String)
    (h1 : k ≠ "required") (h2 : k ≠ "properties") :
    lookupKey (objStep js name td) k = lookupKey js k := by
  cases td with
  | s sh =>
      rw [objStep, lookup_setProp_ne _ _ _ _ h2]
      show lookupKey (parseTypeDescription js name sh).1 k = lookupKey js k
      rw [parseTypeDescription]
      cases jsSplit sh with
      | nil => rfl
      | cons ty options =>
          simp only
          rw [optLoop_fst, lookup_pushReqN_ne _ _ _ _ h1]
  | v value =>
      cases value with
      | jobj mk es =>
          cases mk
          · exact lookup_setProp_ne _ _ _ _ h2
          · show lookupKey (setProp (pushRequired js name) name (JVal.jobj true es)) k =
                lookupKey js k
            rw [lookup_setProp_ne _ _ _ _ h2]
            exact lookup_pushRequired_ne _ _ _ h1
      | str s => exact lookup_setProp_ne _ _ _ _ h2
      | num n => exact lookup_setProp_ne _ _ _ _ h2
      | bool b => exact lookup_setProp_ne _ _ _ _ h2
      | null => exact lookup_setProp_ne _ _ _ _ h2
      | arr l => exact lookup_setProp_ne _ _ _ _ h2
      | inf b => exact lookup_setProp_ne _ _ _ _ h2

theorem lookup_objLoop_ne : ∀ (m : List (String × TypeDesc)) (js : Entries) (k : String),
    k ≠ "required" → k ≠ "properties" → lookupKey (objLoop m js) k = lookupKey js k
  | [], _, _, _, _ => rfl
  | (name, td) :: rest, js, k, h1, h2 => by
      rw [objLoop, lookup_objLoop_ne rest _ k h1 h2, lookup_objStep_ne _ _ _ _ h1 h2]

/-- Reading a string key through `decorate` sees the underlying entries
whenever the pending chained entries do not contain that key. -/
theorem decorate_lookup (self : Chain) (mk : Bool) (es : Entries) (k : String)
    (h : k ∉ self.chained.map Prod.fst) :
    (decorate self (.jobj mk es)).lookup k = lookupKey es k := by
  rw [decorate]
  simp only [JVal.lookup]
  cases self.hasChained with
  | false => rfl
  | true =>
      simp only [if_pos]
      exact lookup_assign_notin _ _ _ h

theorem objOptsApply_strict (opts : ObjOpts) (hs : opts.strict = true) :
    lookupKey (objOptsApply opts) "additionalProperties" = some (.bool false) := by
  rw [objOptsApply]
  simp only [hs, if_pos]
  cases opts.dflt with
  | some d =>
      simp only
      rw [lookup_setEntry_ne _ _ _ _ (by decide)]
      cases opts.dependencies with
      | some dd =>
          simp only [setDependencies]
          rw [lookup_setEntry_ne _ _ _ _ (by decide)]
          exact lookup_setEntry_self _ _ _
      | none => exact lookup_setEntry_self _ _ _
  | none =>
      simp only
      cases opts.dependencies with
      | some dd =>
          simp only [setDependencies]
          rw [lookup_setEntry_ne _ _ _ _ (by decide)]
          exact lookup_setEntry_self _ _ _
      | none => exact lookup_setEntry_self _ _ _

/-- Every successful `obj` call with the strict flag set produces a fragment
with `additionalProperties: false` (provided the pending chained entries do
not themselves introduce that key, which `$id`/`definitions` never do). -/
theorem obj_strict_additionalProperties (self : Chain) (m : List (String × TypeDesc))
    (opts : ObjOpts) (r : JVal) (hw : "additionalProperties" ∉ self.chained.map Prod.fst)
    (hs : opts.strict = true) (h : obj self m opts = .ok r) :
    r.lookup "additionalProperties" = some (.bool false) := by
  rw [obj] at h
  have hfin : ∀ js : Entries, objFinish self m js = r →
      lookupKey js "additionalProperties" = some (.bool false) →
      r.lookup "additionalProperties" = some (.bool false) := by
    intro js he hap
    subst he
    rw [objFinish, decorate_lookup _ _ _ _ hw,
      lookup_objLoop_ne _ _ _ (by decide) (by decide), hap]
  cases hreq : opts.required with
  | none =>
      simp only [hreq, Except.ok.injEq] at h
      exact hfin _ h (objOptsApply_strict opts hs)
  | some v =>
      simp only [hreq] at h
      by_cases htr : truthy v = true
      · simp only [htr, if_pos] at h
        cases v with
        | arr l =>
            simp only [Except.ok.injEq] at h
            refine hfin _ h ?_
            rw [lookup_setEntry_ne _ _ _ _ (by decide)]
            exact objOptsApply_strict opts hs
        | str s => exact absurd h (by simp)
        | num n => exact absurd h (by simp)
        | bool b => exact absurd h (by simp)
        | null => exact absurd h (by simp)
        | jobj mk es => exact absurd h (by simp)
        | inf b => exact absurd h (by simp)
      · simp only [Bool.not_eq_true] at htr
        simp only [htr, Bool.false_eq_true, if_false, Except.ok.injEq] at h
        exact hfin _ h (objOptsApply_strict opts hs)

/-! ### Characterization of the shorthand option loop -/

theorem lookup_optLoop_format (name : String) : ∀ (os : List String) (p ps : Entries),
    lookupKey (optLoop name os p ps).2 "format" =
      if "uri" ∈ os then some (.str "uri") else lookupKey ps "format"
  | [], _, _ => by simp [optLoop]
  | o :: rest, p, ps => by
      rw [optLoop]
      rw [lookup_optLoop_format name rest]
      by_cases ho : o = "uri"
      · subst ho
        have he : effNum "uri" = none := rfl
        simp only [he, if_pos rfl]
        rw [if_pos (List.mem_cons_self _ _)]
        by_cases hr : "uri" ∈ rest
        · rw [if_pos hr]
        · rw [if_neg hr]
          simp [lookup_setEntry_self]
      · cases heff : effNum o with
        | some n =>
            simp only [heff, if_neg ho]
            by_cases hr : "uri" ∈ rest
            · rw [if_pos hr, if_pos (List.mem_cons_of_mem _ hr)]
            · rw [if_neg hr, if_neg (by simp [List.mem_cons, hr, Ne.symm ho]),
                lookup_setEntry_ne _ _ _ _ (by decide),
                lookup_setEntry_ne _ _ _ _ (by decide)]
        | none =>
            simp only [heff, if_neg ho]
            by_cases hr : "uri" ∈ rest
            · rw [if_pos hr, if_pos (List.mem_cons_of_mem _ hr)]
            · rw [if_neg hr, if_neg (by simp [List.mem_cons, hr, Ne.symm ho])]

theorem lookup_optLoop_minLength (name : String) : ∀ (os : List String) (p ps : Entries),
    lookupKey (optLoop name os p ps).2 "minLength" =
      if os.any (fun o => (effNum o).isSome) then some (.num 1)
      else lookupKey ps "minLength"
  | [], _, _ => by simp [optLoop]
  | o :: rest, p, ps => by
      rw [optLoop]
      rw [lookup_optLoop_minLength name rest]
      cases heff : effNum o with
      | some n =>
          have hany : (o :: rest).any (fun o => (effNum o).isSome) = true := by
            simp [List.any_cons, heff]
          rw [hany, if_pos rfl]
          simp only [heff]
          by_cases hr : rest.any (fun o => (effNum o).isSome) = true
          · rw [if_pos hr]
          · simp only [Bool.not_eq_true] at hr
            rw [hr]
            simp only [Bool.false_eq_true, if_false]
            rw [lookup_setEntry_ne _ _ _ _ (by decide)]
            exact lookup_setEntry_self _ _ _
      | none =>
          have hany : (o :: rest).any (fun o => (effNum o).isSome) =
              rest.any (fun o => (effNum o).isSome) := by
            simp [List.any_cons, heff]
          rw [hany]
          simp only [heff]
          by_cases hr : rest.any (fun o => (effNum o).isSome) = true
          · simp [hr]
          · simp only [Bool.not_eq_true] at hr
            rw [hr]
            simp only [Bool.false_eq_true, if_false]
            by_cases ho : o = "uri"
            · subst ho
              simp only [if_pos rfl]
              exact lookup_setEntry_ne _ _ _ _ (by decide)
            · simp only [if_neg ho]

theorem lastEffFrom_shift : ∀ (os : List String) (acc : Option JVal),
    lastEffFrom acc os = match lastEffFrom none os with
      | some v => some v
      | none => acc
  | [], acc => by simp [lastEffFrom]
  | o :: rest, acc => by
      rw [lastEffFrom, lastEffFrom]
      cases heff : effNum o with
      | some n =>
          simp only [heff]
          rw [lastEffFrom_shift rest (some n)]
          cases lastEffFrom none rest <;> rfl
      | none =>
          simp only [heff]
          rw [lastEffFrom_shift rest acc]

theorem lookup_optLoop_maxLength (name : String) : ∀ (os : List String) (p ps : Entries),
    lookupKey (optLoop name os p ps).2 "maxLength" =
      match lastEffFrom none os with
      | some v => some v
      | none => lookupKey ps "maxLength"
  | [], _, _ => by simp [optLoop, lastEffFrom]
  | o :: rest, p, ps => by
      rw [optLoop, lastEffFrom]
      cases heff : effNum o with
      | some n =>
          simp only [heff]
          rw [lookup_optLoop_maxLength name rest, lastEffFrom_shift rest (some n)]
          cases lastEffFrom none rest with
          | some m => rfl
          | none =>
              simp only
              exact lookup_setEntry_self _ _ _
      | none =>
          simp only [heff]
          rw [lookup_optLoop_maxLength name rest]
          cases lastEffFrom none rest with
          | some m => rfl
          | none =>
              simp only
              by_cases ho : o = "uri"
              · subst ho
                simp only [if_pos rfl]
                exact lookup_setEntry_ne _ _ _ _ (by decide)
              · simp only [if_neg ho]

theorem lookup_pushReqN_required (name : String) : ∀ (n : Nat) (p : Entries),
    (lookupKey p "required" = none ∨ ∃ l, lookupKey p "required" = some (.arr l)) →
    0 < n →
    pushReqN p name n =
      setEntry p "required" (.arr (reqBase p ++ List.replicate n (.str name)))
  | 0, _, _, hn => absurd hn (by decide)
  | 1, _, _, _ => rfl
  | n + 2, p, h, _ => by
      rw [pushReqN]
      rw [lookup_pushReqN_required name (n + 1) (pushRequired p name)
        (Or.inr ⟨_, lookup_setEntry_self _ _ _⟩) (Nat.succ_pos n)]
      have hrb : reqBase (pushRequired p name) = reqBase p ++ [.str name] := by
        rw [pushRequired, reqBase, lookup_setEntry_self]
        rfl
      rw [hrb, pushRequired, setEntry_setEntry]
      congr 2
      rw [List.append_assoc]
      rfl



/-! ### Accumulation of the `types` union -/

theorem typesLoop_acc : ∀ (ts : List String) (l : List JVal),
    (∀ t ∈ ts, t ≠ "" ∧ jsSplit t = [t]) →
    typesLoop (ts.map .s) [("type", .arr l)] = [("type", .arr (l ++ ts.map .str))]
  | [], l, _ => by simp [typesLoop]
  | t :: rest, l, h => by
      have h1 := h t (List.mem_cons_self _ _)
      have hptd : paramEntries (TypeDesc.s t) = [("type", JVal.str t)] := by
        rw [paramEntries, parseTypeDescription, h1.2]
        rfl
      rw [List.map_cons, typesLoop, hptd]
      have hmt : mergeTypes [("type", JVal.str t)] [("type", JVal.arr l)] =
          [("type", JVal.arr (l ++ [JVal.str t]))] := by
        rw [mergeTypes]
        simp [lookupKey, truthy, h1.1, setEntry, arrayify]
      rw [hmt]
      have hassign : assignEntries [("type", JVal.arr l)]
          [("type", JVal.arr (l ++ [JVal.str t]))] =
          [("type", JVal.arr (l ++ [JVal.str t]))] := rfl
      rw [hassign]
      rw [typesLoop_acc rest (l ++ [JVal.str t])
        (fun u hu => h u (List.mem_cons_of_mem _ hu))]
      rw [List.append_assoc]
      rfl

/-! ### General characterization of the `types` parameter loop -/

theorem lookup_not_mem (es : Entries) (k : String) (h : k ∉ es.map Prod.fst) :
    lookupKey es k = none := by
  induction es with
  | nil => rfl
  | cons p rest ih =>
      obtain ⟨k1, v1⟩ := p
      simp only [List.map_cons, List.mem_cons, not_or] at h
      simp [lookupKey, Ne.symm h.1, ih h.2]

theorem setEntry_fst (es : Entries) (k : String) (v : JVal) :
    (setEntry es k v).map Prod.fst =
      if k ∈ es.map Prod.fst then es.map Prod.fst else es.map Prod.fst ++ [k] := by
  induction es with
  | nil => simp [setEntry]
  | cons p rest ih =>
      obtain ⟨k1, v1⟩ := p
      by_cases h : k1 = k
      · subst h
        simp [setEntry]
      · simp only [setEntry, if_neg h, List.map_cons, ih]
        by_cases hm : k ∈ rest.map Prod.fst
        · rw [if_pos hm, if_pos (List.mem_cons_of_mem _ hm)]
        · rw [if_neg hm, if_neg (by simp [List.mem_cons, hm, Ne.symm h]),
            List.cons_append]

theorem setEntry_keys_nodup (es : Entries) (k : String) (v : JVal)
    (h : (es.map Prod.fst).Nodup) : ((setEntry es k v).map Prod.fst).Nodup := by
  rw [setEntry_fst]
  by_cases hm : k ∈ es.map Prod.fst
  · rw [if_pos hm]
    exact h
  · rw [if_neg hm]
    simp [List.nodup_append, h, hm]

theorem lookup_assign_nodup : ∀ (src t : Entries) (k : String),
    (src.map Prod.fst).Nodup →
    lookupKey (assignEntries t src) k =
      match lookupKey src k with
      | some v => some v
      | none => lookupKey t k
  | [], _, _, _ => rfl
  | (k1, v1) :: rest, t, k, h => by
      have h2 : (k1 :: rest.map Prod.fst).Nodup := h
      have hparts := List.nodup_cons.mp h2
      rw [assignEntries, lookup_assign_nodup rest _ k hparts.2]
      by_cases he : k1 = k
      · subst he
        rw [show lookupKey ((k1, v1) :: rest) k1 = some v1 from by simp [lookupKey]]
        rw [lookup_not_mem rest k1 hparts.1]
        exact lookup_setEntry_self t k1 v1
      · rw [show lookupKey ((k1, v1) :: rest) k = lookupKey rest k from by
          simp [lookupKey, he]]
        cases lookupKey rest k with
        | some v => rfl
        | none => exact lookup_setEntry_ne t k1 k v1 (Ne.symm he)

theorem lookup_mergeTypes_ne (o r : Entries) (k : String) (h : k ≠ "type") :
    lookupKey (mergeTypes o r) k = lookupKey o k := by
  rw [mergeTypes]
  cases h1 : lookupKey o "type" with
  | none => rfl
  | some ot =>
      cases h2 : lookupKey r "type" with
      | none => rfl
      | some rt =>
          by_cases ht : (truthy ot && truthy rt) = true
          · simp only [ht, if_pos]
            exact lookup_setEntry_ne _ _ _ _ h
          · simp only [Bool.not_eq_true] at ht
            simp [ht]

theorem mergeTypes_fst_nodup (o r : Entries) (h : (o.map Prod.fst).Nodup) :
    ((mergeTypes o r).map Prod.fst).Nodup := by
  rw [mergeTypes]
  cases lookupKey o "type" with
  | none => exact h
  | some ot =>
      cases lookupKey r "type" with
      | none => exact h
      | some rt =>
          by_cases ht : (truthy ot && truthy rt) = true
          · simp only [ht, if_pos]
            exact setEntry_keys_nodup _ _ _ h
          · simp only [Bool.not_eq_true] at ht
            simpa [ht] using h

theorem lastValFrom_shift (k : String) : ∀ (params : List TypeDesc) (acc : Option JVal),
    lastValFrom k acc params = match lastValFrom k none params with
      | some v => some v
      | none => acc
  | [], acc => by simp [lastValFrom]
  | td :: rest, acc => by
      rw [lastValFrom, lastValFrom]
      cases heff : lookupKey (paramEntries td) k with
      | some v =>
          simp only [heff]
          rw [lastValFrom_shift k rest (some v)]
          cases lastValFrom k none rest <;> rfl
      | none =>
          simp only [heff]
          rw [lastValFrom_shift k rest acc]

theorem lookup_typesLoop_ne : ∀ (params : List TypeDesc) (r : Entries) (k : String),
    k ≠ "type" →
    (∀ td ∈ params, ((paramEntries td).map Prod.fst).Nodup) →
    lookupKey (typesLoop params r) k =
      match lastVal k params with
      | some v => some v
      | none => lookupKey r k
  | [], _, _, _, _ => rfl
  | td :: rest, r, k, hk, hnd => by
      have hh := hnd td (List.mem_cons_self _ _)
      rw [typesLoop, lookup_typesLoop_ne rest _ k hk
        (fun u hu => hnd u (List.mem_cons_of_mem _ hu))]
      rw [lookup_assign_nodup (mergeTypes (paramEntries td) r) r k
        (mergeTypes_fst_nodup _ _ hh)]
      rw [lookup_mergeTypes_ne _ _ _ hk]
      have hshift : lastVal k (td :: rest) =
          match lastVal k rest with
          | some v => some v
          | none =>
              match lookupKey (paramEntries td) k with
              | some v => some v
              | none => none := by
        rw [lastVal, lastValFrom, lastValFrom_shift]
        rfl
      rw [hshift]
      cases lastVal k rest with
      | some v => rfl
      | none =>
          cases lookupKey (paramEntries td) k with
          | some v => rfl
          | none => rfl

theorem lookup_typesLoop_type : ∀ (params : List TypeDesc) (l : List JVal) (r : Entries),
    (∀ td ∈ params, ∃ tv, typeOf td = some tv ∧ truthy tv = true) →
    (∀ td ∈ params, ((paramEntries td).map Prod.fst).Nodup) →
    lookupKey r "type" = some (.arr l) →
    lookupKey (typesLoop params r) "type" = some (.arr (l ++ typeUnion params))
  | [], l, r, _, _, hr => by simp [typesLoop, typeUnion, hr]
  | td :: rest, l, r, hty, hnd, hr => by
      obtain ⟨tv, htv, htr⟩ := hty td (List.mem_cons_self _ _)
      have hh := hnd td (List.mem_cons_self _ _)
      have hm : mergeTypes (paramEntries td) r =
          setEntry (paramEntries td) "type" (.arr (l ++ arrayify tv)) := by
        rw [mergeTypes, show lookupKey (paramEntries td) "type" = some tv from htv, hr]
        show (if (truthy tv && truthy (JVal.arr l)) = true then
            setEntry (paramEntries td) "type" (JVal.arr (arrayify (JVal.arr l) ++ arrayify tv))
          else paramEntries td) = _
        rw [htr, show truthy (JVal.arr l) = true from rfl]
        simp [arrayify]
      rw [typesLoop, hm]
      have hr2 : lookupKey (assignEntries r
          (setEntry (paramEntries td) "type" (.arr (l ++ arrayify tv)))) "type" =
          some (.arr (l ++ arrayify tv)) := by
        rw [lookup_assign_nodup _ _ _ (setEntry_keys_nodup _ _ _ hh),
          lookup_setEntry_self]
      rw [lookup_typesLoop_type rest (l ++ arrayify tv) _
        (fun u hu => hty u (List.mem_cons_of_mem _ hu))
        (fun u hu => hnd u (List.mem_cons_of_mem _ hu)) hr2]
      simp only [typeUnion, htv, Option.getD_some]
      rw [List.append_assoc]

/-! ### Claim theorems -/

/-- C1: for every property name f, `obj({f: 'string:required'})` returns
exactly the fragment with type 'object', required ['f'] and
properties.f = `{type:'string'}` (shown with the JS insertion order
type, properties, required — `deepEqual` ignores key order), and
`obj({f: required.string()})` returns a fragment equal to it on all
string-keyed entries (the only difference is the private required marker on
the nested fragment, erased by `JVal.strip`): the shorthand ':required'
suffix and the chained `required` accessor produce equivalent parent
objects, each promoting f into the parent's required list. -/
theorem claim1_obj_shorthand_and_chain_required (f : String) :
    obj base [(f, .s "string:required")] {} =
      .ok (.jobj false [("type", .str "object"),
        ("properties", .jobj false [(f, .jobj false [("type", .str "string")])]),
        ("required", .arr [.str f])]) ∧
    string (required base) {} = .ok (.jobj true [("type", .str "string")]) ∧
    obj base [(f, .v (.jobj true [("type", .str "string")]))] {} =
      .ok (.jobj false [("type", .str "object"),
        ("properties", .jobj false [(f, .jobj true [("type", .str "string")])]),
        ("required", .arr [.str f])]) ∧
    JVal.strip (.jobj false [("type", .str "object"),
        ("properties", .jobj false [(f, .jobj true [("type", .str "string")])]),
        ("required", .arr [.str f])]) =
      JVal.strip (.jobj false [("type", .str "object"),
        ("properties", .jobj false [(f, .jobj false [("type", .str "string")])]),
        ("required", .arr [.str f])]) :=
  ⟨rfl, rfl, rfl, by simp [JVal.strip, stripEntries, stripList]⟩

/-- C2: chain state accumulation is order-independent and re-readable:
`required.$id(x)` and `$id(x).required` carry the same state (so any
constructor invoked on either decorates identically), and invoking a
constructor repeatedly on the same retained derived builder yields the same
decorated fragment every time — each repetition still carries the pending
`$id` entry and the pending required marker. -/
theorem claim2_chain_state_composes :
    (∀ id : String, dollarId (required base) id = required (dollarId base id)) ∧
    (∀ (id : String) (o : JVal),
       decorate (dollarId (required base) id) o =
         decorate (required (dollarId base id)) o) ∧
    (∀ (id : String) (args : List JVal) (n : Nat),
       callRepeat (dollarId (required base) id) args n =
         List.replicate n (enum (dollarId (required base) id) args) ∧
       (enum (dollarId (required base) id) args).lookup "$id" = some (.str id) ∧
       marked (enum (dollarId (required base) id) args) = true) := by
  refine ⟨fun id => rfl, fun id o => rfl, fun id args n => ⟨?_, rfl, rfl⟩⟩
  induction n with
  | zero => rfl
  | succ n ih => rw [callRepeat, ih, List.replicate_succ]

/-- C4: `types('string','null')` is exactly `{type:['string','null']}` and
`types(enum('foo'), number({min:0}))` is exactly
`{type:['string','number'], enum:['foo'], minimum:0}` — with two operands
the union lists the first operand's type first and all non-type keys of
both operands survive. -/
theorem claim4_types_two_operands :
    types base [.s "string", .s "null"] =
      .jobj false [("type", .arr [.str "string", .str "null"])] ∧
    types base [.v (enum base [.str "foo"]), .v (number base { min := some 0 })] =
      .jobj false [("type", .arr [.str "string", .str "number"]),
        ("enum", .arr [.str "foo"]), ("minimum", .num 0)] :=
  ⟨rfl, rfl⟩

/-- C5: `string({pattern: p})` raises a synchronous error naming the
offending pattern whenever p is a RegExp carrying at least one flag, and for
every flagless RegExp (whose source, in JS, is never the empty string) it
returns the same fragment as passing the source string directly. -/
theorem claim5_string_pattern :
    (∀ (c : Chain) (opts : StringOpts) (src flags : String), flags ≠ "" →
       string c { opts with pattern := some (.regexp src flags) } =
         .error ("JSON schema does not support regexp flags: /" ++ src ++ "/" ++ flags)) ∧
    (∀ (c : Chain) (opts : StringOpts) (src : String), src ≠ "" →
       string c { opts with pattern := some (.regexp src "") } =
         string c { opts with pattern := some (.str src) }) := by
  constructor
  · intro c opts src flags hf
    simp [string, hf]
  · intro c opts src hs
    simp [string, hs]

/-- C5 witness: the flagged regex `/[a-z]+/i` raises the error with the
pattern in the message, and `/[a-z]+/` is interchangeable with the plain
source string. -/
theorem claim5_string_pattern_witness :
    (("i" : String) ≠ "" ∧
      string base { pattern := some (.regexp "[a-z]+" "i") } =
        .error ("JSON schema does not support regexp flags: /" ++ "[a-z]+" ++ "/" ++ "i")) ∧
    (("[a-z]+" : String) ≠ "" ∧
      string base { pattern := some (.regexp "[a-z]+" "") } =
        string base { pattern := some (.str "[a-z]+") }) :=
  ⟨⟨by decide, claim5_string_pattern.1 base {} "[a-z]+" "i" (by decide)⟩,
   ⟨by decide, claim5_string_pattern.2 base {} "[a-z]+" (by decide)⟩⟩

/-- C7 counterexample: in the current index.js (whose test suite asserts
`const('foo')` deep-equals `{const:'foo'}`), `const` produces no `type`
entry at all, so the claimed fragment `{type:'string', const:'foo'}` is not
returned. -/
theorem claim7_const_counterexample :
    const base (.str "foo") = .jobj false [("const", .str "foo")] ∧
    ¬ (const base (.str "foo")).lookup "type" = some (.str "string") :=
  ⟨rfl, nofun⟩

/-- C7 amended: for every value v, `const(v)` returns exactly `{const: v}` —
the constant alone, with no inferred type entry (the type-inferring variant
exists only in the older bundled index.js revision). -/
theorem claim7_const_value_only (v : JVal) :
    const base v = .jobj false [("const", v)] ∧
    (const base v).lookup "type" = none ∧
    (const base v).lookup "const" = some v :=
  ⟨rfl, rfl, rfl⟩

/-- C8 counterexample: a non-empty homogeneous list of arrays defeats the
claimed spread/array-form equivalence: `enum(...L)` sees an array as its
first argument and collapses to that first element, while `enum(L)` keeps
all of L. -/
theorem claim8_enum_counterexample :
    (∀ v ∈ [JVal.arr [.str "a"], JVal.arr [.str "b"]], getJsonType v = "array") ∧
    enum base [JVal.arr [.str "a"], JVal.arr [.str "b"]] =
      .jobj false [("type", .str "string"), ("enum", .arr [.str "a"])] ∧
    enum base [.arr [JVal.arr [.str "a"], JVal.arr [.str "b"]]] =
      .jobj false [("type", .str "array"),
        ("enum", .arr [.arr [.str "a"], .arr [.str "b"]])] ∧
    enum base [JVal.arr [.str "a"], JVal.arr [.str "b"]] ≠
      enum base [.arr [JVal.arr [.str "a"], JVal.arr [.str "b"]]] := by
  refine ⟨by decide, rfl, rfl, fun h => ?_⟩
  exact absurd (congrArg typeTag h) (by decide)

/-- C8 amended: for every non-empty homogeneous list whose first element is
not itself an array, the spread form and the array form produce identical
fragments, namely type inferred from the first element together with the
full value list. -/
theorem claim8_enum_forms_agree (L : List JVal) (hne : L ≠ [])
    (hfirst : isArr (L.headD .null) = false)
    (hhom : ∀ v ∈ L, getJsonType v = getJsonType (L.headD .null)) :
    enum base L = enum base [.arr L] ∧
    enum base L =
      .jobj false [("type", .str (getJsonType (L.headD .null))), ("enum", .arr L)] := by
  rcases L with _ | ⟨v, rest⟩
  · exact absurd rfl hne
  · cases v with
    | arr l => exact absurd hfirst (by simp [isArr])
    | str s => exact ⟨rfl, rfl⟩
    | num n => exact ⟨rfl, rfl⟩
    | bool b => exact ⟨rfl, rfl⟩
    | null => exact ⟨rfl, rfl⟩
    | jobj mk es => exact ⟨rfl, rfl⟩
    | inf b => exact ⟨rfl, rfl⟩

/-- C8 witness: the homogeneous string list ['a','b'] satisfies the amended
hypotheses and both enum forms agree on it. -/
theorem claim8_enum_forms_agree_witness :
    (([JVal.str "a", JVal.str "b"] : List JVal) ≠ [] ∧
     isArr (([JVal.str "a", JVal.str "b"] : List JVal).headD .null) = false ∧
     (∀ v ∈ [JVal.str "a", JVal.str "b"],
        getJsonType v = getJsonType (([JVal.str "a", JVal.str "b"] : List JVal).headD .null))) ∧
    enum base [JVal.str "a", JVal.str "b"] = enum base [.arr [JVal.str "a", JVal.str "b"]] :=
  ⟨⟨fun h => List.noConfusion h, rfl, by decide⟩,
   (claim8_enum_forms_agree [JVal.str "a", JVal.str "b"]
     (fun h => List.noConfusion h) rfl (by decide)).1⟩


/-- C3 counterexample: with three operands, `types('string','null','boolean')`
produces the union in exact declaration order ['string','null','boolean'];
the later-declared 'boolean' does NOT precede the earlier-declared 'string'
in the output, contradicting the claimed reverse accumulation order beyond
the first pair. -/
theorem claim3_types_order_counterexample :
    types base [.s "string", .s "null", .s "boolean"] =
      .jobj false [("type", .arr [.str "string", .str "null", .str "boolean"])] ∧
    typeNames (types base [.s "string", .s "null", .s "boolean"]) =
      ["string", "null", "boolean"] ∧
    beforeIn (typeNames (types base [.s "string", .s "null", .s "boolean"]))
      "boolean" "string" = false :=
  ⟨rfl, rfl, by decide⟩

/-- C3 amended: for every call with more than two operands, non-type keys
merge with last-wins overwrite — each key of the result other than `type`
holds the value contributed by the LAST argument carrying that key (stated
for arguments whose normalized entries have no repeated keys, as JS objects
cannot repeat keys) — and `type` accumulates into an ordered union in
DECLARATION order: when every argument carries a truthy type, the union is
each argument's type (flattened) in source order, earlier-declared types
first.  The last two conjuncts instantiate this: plain type-name shorthands
produce exactly the declaration-order union, and a concrete three-fragment
call with an overlapping non-type key keeps the last argument's value. -/
theorem claim3_types_declaration_order :
    (∀ (params : List TypeDesc) (k : String), 2 < params.length → k ≠ "type" →
       (∀ td ∈ params, ((paramEntries td).map Prod.fst).Nodup) →
       (types base params).lookup k = lastVal k params) ∧
    (∀ params : List TypeDesc, 2 < params.length →
       (∀ td ∈ params, ∃ tv, typeOf td = some tv ∧ truthy tv = true) →
       (∀ td ∈ params, ((paramEntries td).map Prod.fst).Nodup) →
       (types base params).lookup "type" = some (.arr (typeUnion params))) ∧
    (∀ ts : List String, 2 < ts.length → (∀ t ∈ ts, t ≠ "" ∧ jsSplit t = [t]) →
       types base (ts.map .s) = .jobj false [("type", .arr (ts.map .str))]) ∧
    types base [.v (.jobj false [("type", .str "a"), ("k", .num 1)]),
                .v (.jobj false [("type", .str "b"), ("k", .num 2)]),
                .v (.jobj false [("type", .str "c"), ("k", .num 3)])] =
      .jobj false [("type", .arr [.str "a", .str "b", .str "c"]), ("k", .num 3)] := by
  refine ⟨?_, ?_, ?_, rfl⟩
  · intro params k h2 hk hnd
    show lookupKey (typesLoop params []) k = lastVal k params
    rw [lookup_typesLoop_ne params [] k hk hnd]
    cases lastVal k params with
    | some v => rfl
    | none => rfl
  · intro params h2 hty hnd
    rcases params with _ | ⟨p1, _ | ⟨p2, rest⟩⟩
    · simp at h2
    · simp at h2
    obtain ⟨tv1, htv1, htr1⟩ := hty p1 (List.mem_cons_self _ _)
    obtain ⟨tv2, htv2, htr2⟩ :=
      hty p2 (List.mem_cons_of_mem _ (List.mem_cons_self _ _))
    have hnd1 := hnd p1 (List.mem_cons_self _ _)
    have hnd2 := hnd p2 (List.mem_cons_of_mem _ (List.mem_cons_self _ _))
    show lookupKey (typesLoop (p1 :: p2 :: rest) []) "type" = _
    rw [typesLoop]
    have hm1 : mergeTypes (paramEntries p1) [] = paramEntries p1 := by
      rw [mergeTypes, show lookupKey (paramEntries p1) "type" = some tv1 from htv1]
      rfl
    rw [hm1]
    have hr1 : lookupKey (assignEntries [] (paramEntries p1)) "type" = some tv1 := by
      rw [lookup_assign_nodup _ _ _ hnd1,
        show lookupKey (paramEntries p1) "type" = some tv1 from htv1]
    rw [typesLoop]
    have hm2 : mergeTypes (paramEntries p2) (assignEntries [] (paramEntries p1)) =
        setEntry (paramEntries p2) "type" (.arr (arrayify tv1 ++ arrayify tv2)) := by
      rw [mergeTypes, show lookupKey (paramEntries p2) "type" = some tv2 from htv2, hr1]
      show (if (truthy tv2 && truthy tv1) = true then
          setEntry (paramEntries p2) "type" (JVal.arr (arrayify tv1 ++ arrayify tv2))
        else paramEntries p2) = _
      rw [htr1, htr2]
      simp
    rw [hm2]
    have hr2 : lookupKey (assignEntries (assignEntries [] (paramEntries p1))
        (setEntry (paramEntries p2) "type" (.arr (arrayify tv1 ++ arrayify tv2))))
        "type" = some (.arr (arrayify tv1 ++ arrayify tv2)) := by
      rw [lookup_assign_nodup _ _ _ (setEntry_keys_nodup _ _ _ hnd2),
        lookup_setEntry_self]
    rw [lookup_typesLoop_type rest (arrayify tv1 ++ arrayify tv2) _
      (fun u hu => hty u (List.mem_cons_of_mem _ (List.mem_cons_of_mem _ hu)))
      (fun u hu => hnd u (List.mem_cons_of_mem _ (List.mem_cons_of_mem _ hu))) hr2]
    simp only [typeUnion, htv1, htv2, Option.getD_some]
    rw [List.append_assoc]
  · intro ts h2 hok
    rcases ts with _ | ⟨t1, _ | ⟨t2, rest⟩⟩
    · simp at h2
    · simp at h2
    have h1 := hok t1 (List.mem_cons_self _ _)
    have hb := hok t2 (List.mem_cons_of_mem _ (List.mem_cons_self _ _))
    have hok3 : ∀ t ∈ rest, t ≠ "" ∧ jsSplit t = [t] :=
      fun u hu => hok u (List.mem_cons_of_mem _ (List.mem_cons_of_mem _ hu))
    show JVal.jobj false (typesLoop ((t1 :: t2 :: rest).map TypeDesc.s) []) =
      JVal.jobj false [("type", .arr ((t1 :: t2 :: rest).map JVal.str))]
    have hptd1 : paramEntries (TypeDesc.s t1) = [("type", JVal.str t1)] := by
      rw [paramEntries, parseTypeDescription, h1.2]
      rfl
    have hptd2 : paramEntries (TypeDesc.s t2) = [("type", JVal.str t2)] := by
      rw [paramEntries, parseTypeDescription, hb.2]
      rfl
    rw [List.map_cons, typesLoop, hptd1]
    have hm1 : mergeTypes [("type", JVal.str t1)] [] = [("type", JVal.str t1)] := rfl
    have ha1 : assignEntries [] [("type", JVal.str t1)] = [("type", JVal.str t1)] := rfl
    rw [hm1, ha1, List.map_cons, typesLoop, hptd2]
    have hm2 : mergeTypes [("type", JVal.str t2)] [("type", JVal.str t1)] =
        [("type", JVal.arr [JVal.str t1, JVal.str t2])] := by
      rw [mergeTypes]
      simp [lookupKey, truthy, h1.1, hb.1, setEntry, arrayify]
    have ha2 : assignEntries [("type", JVal.str t1)]
        [("type", JVal.arr [JVal.str t1, JVal.str t2])] =
        [("type", JVal.arr [JVal.str t1, JVal.str t2])] := rfl
    rw [hm2, ha2, typesLoop_acc rest [JVal.str t1, JVal.str t2] hok3]
    simp

/-- C3 witness: the amended theorem applied concretely — last-wins on the
non-type key 'k' and the declaration-order type union for three fragment
arguments, and the exact output for `types('string','null','boolean')`. -/
theorem claim3_types_declaration_order_witness :
    (2 < ([.v (.jobj false [("type", .str "a"), ("k", .num 1)]),
           .v (.jobj false [("type", .str "b"), ("k", .num 2)]),
           .v (.jobj false [("type", .str "c"), ("k", .num 3)])] : List TypeDesc).length ∧
     ("k" : String) ≠ "type" ∧
     (∀ td ∈ ([.v (.jobj false [("type", .str "a"), ("k", .num 1)]),
               .v (.jobj false [("type", .str "b"), ("k", .num 2)]),
               .v (.jobj false [("type", .str "c"), ("k", .num 3)])] : List TypeDesc),
        ((paramEntries td).map Prod.fst).Nodup)) ∧
    (types base [.v (.jobj false [("type", .str "a"), ("k", .num 1)]),
                 .v (.jobj false [("type", .str "b"), ("k", .num 2)]),
                 .v (.jobj false [("type", .str "c"), ("k", .num 3)])]).lookup "k" =
      some (.num 3) ∧
    (types base [.v (.jobj false [("type", .str "a"), ("k", .num 1)]),
                 .v (.jobj false [("type", .str "b"), ("k", .num 2)]),
                 .v (.jobj false [("type", .str "c"), ("k", .num 3)])]).lookup "type" =
      some (.arr [.str "a", .str "b", .str "c"]) ∧
    types base ((["string", "null", "boolean"] : List String).map .s) =
      .jobj false [("type",
        .arr ((["string", "null", "boolean"] : List String).map JVal.str))] :=
  ⟨⟨by decide, by decide, by decide⟩,
   claim3_types_declaration_order.1
     [.v (.jobj false [("type", .str "a"), ("k", .num 1)]),
      .v (.jobj false [("type", .str "b"), ("k", .num 2)]),
      .v (.jobj false [("type", .str "c"), ("k", .num 3)])] "k"
     (by decide) (by decide) (by decide),
   claim3_types_declaration_order.2.1
     [.v (.jobj false [("type", .str "a"), ("k", .num 1)]),
      .v (.jobj false [("type", .str "b"), ("k", .num 2)]),
      .v (.jobj false [("type", .str "c"), ("k", .num 3)])]
     (by decide)
     (fun td htd => by
       rcases List.mem_cons.mp htd with rfl | htd
       · exact ⟨.str "a", rfl, rfl⟩
       rcases List.mem_cons.mp htd with rfl | htd
       · exact ⟨.str "b", rfl, rfl⟩
       rcases List.mem_cons.mp htd with rfl | htd
       · exact ⟨.str "c", rfl, rfl⟩
       · exact absurd htd (List.not_mem_nil td))
     (by decide),
   (claim3_types_declaration_order.2.2.1 ["string", "null", "boolean"]
     (by decide) (by decide))⟩

/-- C6: `strictObj(X, opts)` returns exactly `obj(X, opts-with-strict-true)`
for every property map and options object (the source delegates after
setting the flag), and every fragment a successful `strictObj` call
produces contains `additionalProperties: false` (for any pending chain
state that does not itself smuggle in that key — `$id`/`definitions`, the
only chained entries the builder ever records, never do). -/
theorem claim6_strictObj_equiv :
    (∀ (c : Chain) (m : List (String × TypeDesc)) (opts : ObjOpts),
       strictObj c m opts = obj c m { opts with strict := true }) ∧
    (∀ (c : Chain) (m : List (String × TypeDesc)) (opts : ObjOpts) (r : JVal),
       "additionalProperties" ∉ c.chained.map Prod.fst →
       strictObj c m opts = .ok r →
       r.lookup "additionalProperties" = some (.bool false)) := by
  refine ⟨fun c m opts => rfl, fun c m opts r hw h => ?_⟩
  exact obj_strict_additionalProperties c m { opts with strict := true } r hw rfl h

/-- C6 witness: the equivalence and the strictness of the output at the
concrete call `strictObj({}, {})` on the base builder. -/
theorem claim6_strictObj_equiv_witness :
    ("additionalProperties" ∉ (base.chained.map Prod.fst) ∧
     strictObj base [] {} = .ok (.jobj false [("type", .str "object"),
       ("properties", .jobj false []), ("additionalProperties", .bool false)])) ∧
    strictObj base [] {} = obj base [] { ({} : ObjOpts) with strict := true } ∧
    (JVal.jobj false [("type", .str "object"), ("properties", .jobj false []),
       ("additionalProperties", .bool false)]).lookup "additionalProperties" =
      some (.bool false) :=
  ⟨⟨by simp [base], rfl⟩,
   claim6_strictObj_equiv.1 base [] {},
   claim6_strictObj_equiv.2 base [] {} _ (by simp [base]) rfl⟩


/-- C9 counterexample: the option '-1' is neither 'uri' nor 'required' nor a
positive integer literal, yet `parseTypeDescription` does not ignore it: the
truthiness test is `Math.floor(option)`, which is the nonzero number -1
here, so the fragment gains `minLength: 1` and `maxLength: -1`. -/
theorem claim9_shorthand_counterexample :
    ("-1" ≠ "uri" ∧ "-1" ≠ "required" ∧ isPosIntLiteral "-1" = false) ∧
    parseTypeDescription [] "p" "string:-1" =
      ([], [("type", .str "string"), ("minLength", .num 1), ("maxLength", .num (-1))]) :=
  ⟨⟨by decide, by decide, by decide⟩, rfl⟩

/-- C9 amended: for a shorthand splitting into `ty :: options` (against a
parent whose required entry is absent or an array, the only shapes `obj`
ever passes), the produced fragment has type exactly `ty` (never
validated), `format:'uri'` iff some option is 'uri', and `minLength: 1`
plus a `maxLength` iff some option has a truthy `Math.floor(Number(·))` —
under the full ECMAScript ToNumber string grammar: signed decimals with
fraction or exponent, 'Infinity', hex/binary/octal, surrounding whitespace
— the last such option's floor winning; so negative, fractional, exponent
and hex options are honoured, not ignored, while options coercing to NaN
or 0 are no-ops on the fragment; every other key is absent.  Each
'required' occurrence appends the property name once to the parent's
required list, and other options leave the parent unchanged. -/
theorem claim9_shorthand_characterization
    (parent : Entries) (name ty typeDesc : String) (options : List String)
    (hsplit : jsSplit typeDesc = ty :: options)
    (hreq : lookupKey parent "required" = none ∨
      ∃ l, lookupKey parent "required" = some (.arr l)) :
    lookupKey (parseTypeDescription parent name typeDesc).2 "type" = some (.str ty) ∧
    lookupKey (parseTypeDescription parent name typeDesc).2 "format" =
      (if "uri" ∈ options then some (.str "uri") else none) ∧
    lookupKey (parseTypeDescription parent name typeDesc).2 "minLength" =
      (if options.any (fun o => (effNum o).isSome) then some (.num 1) else none) ∧
    lookupKey (parseTypeDescription parent name typeDesc).2 "maxLength" =
      lastEffFrom none options ∧
    (∀ k, k ≠ "type" → k ≠ "format" → k ≠ "minLength" → k ≠ "maxLength" →
       lookupKey (parseTypeDescription parent name typeDesc).2 k = none) ∧
    (options.count "required" = 0 →
       (parseTypeDescription parent name typeDesc).1 = parent) ∧
    (0 < options.count "required" →
       (parseTypeDescription parent name typeDesc).1 =
         setEntry parent "required"
           (.arr (reqBase parent ++
             List.replicate (options.count "required") (.str name)))) := by
  have hrw : parseTypeDescription parent name typeDesc =
      optLoop name options parent [("type", .str ty)] := by
    rw [parseTypeDescription, hsplit]
  rw [hrw]
  refine ⟨?_, ?_, ?_, ?_, ?_, ?_, ?_⟩
  · rw [lookup_optLoop_snd_ne name options _ _ "type" (by decide) (by decide) (by decide)]
    rfl
  · rw [lookup_optLoop_format name options]
    by_cases hu : "uri" ∈ options
    · rw [if_pos hu, if_pos hu]
    · rw [if_neg hu, if_neg hu]
      rfl
  · rw [lookup_optLoop_minLength name options]
    by_cases hm : options.any (fun o => (effNum o).isSome) = true
    · rw [hm]
      rfl
    · simp only [Bool.not_eq_true] at hm
      rw [hm]
      rfl
  · rw [lookup_optLoop_maxLength name options]
    cases lastEffFrom none options with
    | some v => rfl
    | none => rfl
  · intro k h1 h2 h3 h4
    rw [lookup_optLoop_snd_ne name options _ _ k h2 h3 h4]
    simp [lookupKey, Ne.symm h1]
  · intro hc
    rw [optLoop_fst, hc]
    rfl
  · intro hc
    rw [optLoop_fst]
    exact lookup_pushReqN_required name _ parent hreq hc

/-- C9 witness: the amended characterization evaluated on the concrete
shorthand 'string:uri:required:1e1:x' against an empty parent (the option
'1e1' coerces to 10 under ECMAScript ToNumber, so maxLength becomes 10). -/
theorem claim9_shorthand_characterization_witness :
    (jsSplit "string:uri:required:1e1:x" = ["string", "uri", "required", "1e1", "x"] ∧
     lookupKey ([] : Entries) "required" = none) ∧
    lookupKey (parseTypeDescription [] "nm" "string:uri:required:1e1:x").2 "maxLength" =
      some (.num 10) ∧
    (parseTypeDescription [] "nm" "string:uri:required:1e1:x").1 =
      setEntry [] "required" (.arr (reqBase [] ++ List.replicate
        ((["uri", "required", "1e1", "x"] : List String).count "required") (.str "nm"))) :=
  ⟨⟨rfl, rfl⟩,
   (claim9_shorthand_characterization [] "nm" "string" "string:uri:required:1e1:x"
     ["uri", "required", "1e1", "x"] rfl (Or.inl rfl)).2.2.2.1,
   (claim9_shorthand_characterization [] "nm" "string" "string:uri:required:1e1:x"
     ["uri", "required", "1e1", "x"] rfl (Or.inl rfl)).2.2.2.2.2.2 (by decide)⟩

/-- C10: `strictObj` mutates the caller's options object — modelled by
explicit state passing, the options value the caller observes after the
call has `strict := true` set on it, the call itself delegates to `obj`
with that very mutated value, and reusing it in a later plain `obj` call
produces a strict object (additionalProperties: false). -/
theorem claim10_strictObj_mutates_opts :
    (∀ (c : Chain) (m : List (String × TypeDesc)) (opts : ObjOpts),
       ((strictObjS c m opts).2).strict = true) ∧
    (∀ (c : Chain) (m : List (String × TypeDesc)) (opts : ObjOpts),
       (strictObjS c m opts).1 = obj c m ((strictObjS c m opts).2)) ∧
    (∀ (c c2 : Chain) (m m2 : List (String × TypeDesc)) (opts : ObjOpts) (r : JVal),
       "additionalProperties" ∉ c2.chained.map Prod.fst →
       obj c2 m2 ((strictObjS c m opts).2) = .ok r →
       r.lookup "additionalProperties" = some (.bool false)) := by
  refine ⟨fun c m opts => rfl, fun c m opts => rfl,
    fun c c2 m m2 opts r hw h => ?_⟩
  exact obj_strict_additionalProperties c2 m2 _ r hw rfl h

/-- C10 witness: after `strictObj({}, opts)` on the base builder the
returned options value has strict set, and reusing it in a plain `obj` call
yields a fragment with additionalProperties false. -/
theorem claim10_strictObj_mutates_opts_witness :
    ((strictObjS base [] {}).2).strict = true ∧
    ("additionalProperties" ∉ (base.chained.map Prod.fst) ∧
     obj base [] ((strictObjS base [] {}).2) =
       .ok (.jobj false [("type", .str "object"), ("properties", .jobj false []),
         ("additionalProperties", .bool false)])) ∧
    (JVal.jobj false [("type", .str "object"), ("properties", .jobj false []),
       ("additionalProperties", .bool false)]).lookup "additionalProperties" =
      some (.bool false) :=
  ⟨claim10_strictObj_mutates_opts.1 base [] {},
   ⟨by simp [base], rfl⟩,
   claim10_strictObj_mutates_opts.2.2 base base [] [] {} _ (by simp [base]) rfl⟩

end Microschema
